import Mathlib

/-
Verification development for the travel-plan orchestration engine
(`src/travel-planning-agent-simple.ts`).

Shallow embedding conventions:
  * JS strings are modelled as `List Char` (via `String.data` for literals);
  * JS numbers occurring here are naturals (`Nat`); timestamps are opaque `Nat`s;
  * external calls (the generation provider, the weather fetch, the store) are
    oracle parameters: a provider outcome value per call;
  * JS objects whose key set varies between code paths are modelled as
    association lists `List (String × String)` so that presence or absence of a
    key (e.g. `error`) is expressible;
  * the day-header regex `/\*\*Day \d+:/g` is modelled by a position-wise
    scanner.  In this pattern `*` occurs only at the match head, so two matches
    can never overlap, and scanning every position left to right yields
    exactly the matches the JS global regex yields.
-/

namespace Travel

/-! ## Decimal rendering and parsing of day numbers -/

/-- Decimal rendering of a natural number, as the JS template literal
`${day}` renders it.  Structural on a fuel argument (`n + 1` digits always
suffice) so that the kernel can evaluate it. -/
def natDecimalAux : Nat → Nat → List Char
  | 0, _ => []
  | fuel + 1, n =>
    if n < 10 then [Nat.digitChar n]
    else natDecimalAux fuel (n / 10) ++ [Nat.digitChar (n % 10)]

/-- Decimal rendering of `n` (the digits of `${n}` in a JS template). -/
def natDecimal (n : Nat) : List Char := natDecimalAux (n + 1) n

/-- Numeric value of a run of decimal digit characters, as
`parseInt` computes it on an all-digit string. -/
def parseNat (l : List Char) : Nat :=
  l.foldl (fun a c => 10 * a + (c.toNat - 48)) 0

/-! ## The day-header scanner: the regex `/\*\*Day \d+:/g` -/

/-- The literal part of the day-header pattern: `**Day `. -/
def headerTag : List Char := ['*', '*', 'D', 'a', 'y', ' ']

/-- Match the pattern `\*\*Day \d+:` at the head of `l`; on success return
the numeric value of the digit run and the remainder after the match. -/
def tryHeader (l : List Char) : Option (Nat × List Char) :=
  if l.take 6 = headerTag then
    match (l.drop 6).takeWhile Char.isDigit, (l.drop 6).dropWhile Char.isDigit with
    | [], _ => none
    | _ :: _, ':' :: rest => some (parseNat ((l.drop 6).takeWhile Char.isDigit), rest)
    | _ :: _, _ => none
  else none

/-- All day-header numbers in `l`, left to right: the numbers captured by the
global regex `/\*\*Day (\d+):/g`.  Since `*` occurs in the pattern only at the
match head, matches never overlap and a one-character step is faithful to the
global-regex scan. -/
def scanHeaders : List Char → List Nat
  | [] => []
  | c :: rest =>
    match tryHeader (c :: rest) with
    | some (n, _) => n :: scanHeaders rest
    | none => scanHeaders rest

/-! ## `generateFallbackDays` (source lines 678-690) -/

/-- The four fixed bullet lines of a fallback day block. -/
def mornLine : List Char := ("• Morning: Visit local attractions and landmarks\n").data

/-- Lunch line part before the destination. -/
def lunchPre : List Char := ("• Lunch: Try authentic ").data

/-- Lunch line part after the destination. -/
def lunchSuf : List Char := (" cuisine\n").data

/-- Afternoon bullet line. -/
def aftLine : List Char := ("• Afternoon: Cultural sites and museums\n").data

/-- Evening bullet line, with the blank line that ends the block. -/
def eveLine : List Char := ("• Evening: Local dining and entertainment\n\n").data

/-- One fallback day block, exactly as `generateFallbackDays` appends it for
one value of `day`. -/
def fallbackBlock (destination : List Char) (day : Nat) : List Char :=
  ("**Day ").data ++ natDecimal day ++ (": Explore ").data ++ destination ++ ("**\n").data
    ++ mornLine ++ lunchPre ++ destination ++ lunchSuf ++ aftLine ++ eveLine

/-- The blocks for days `startDay, startDay+1, …` (`n` of them), the body of
the `for (let day = startDay; day <= totalDays; day++)` loop. -/
def fallbackBlocksFrom (destination : List Char) : Nat → Nat → List Char
  | _, 0 => []
  | startDay, n + 1 =>
    fallbackBlock destination startDay ++ fallbackBlocksFrom destination (startDay + 1) n

/-- `generateFallbackDays(destination, totalDays, startDay)`: the string
`"\n\n"` followed by one block per day from `startDay` to `totalDays`. -/
def generateFallbackDays (destination : List Char) (totalDays startDay : Nat) : List Char :=
  ("\n\n").data ++ fallbackBlocksFrom destination startDay (totalDays + 1 - startDay)

/-! ## `generateItinerary` (source lines 560-644): the chunk loop -/

/-- Outcome of one generation call for a chunk: the call either throws, or
returns a response object whose `response` field may be absent
(`ok none`). -/
inductive ChunkOutcome
  | ok (response : Option (List Char))
  | err

/-- Text appended to `itineraryText` for one chunk, per the source: a truthy
`chunkResponse.response` is appended followed by `"\n\n"` (an empty string is
falsy in JS and appends nothing, like an absent field), and a thrown call
appends `generateFallbackDays(destination, endDay, startDay)`. -/
def chunkText (destination : List Char) (startDay endDay : Nat) : ChunkOutcome → List Char
  | .ok (some s) => if s = [] then [] else s ++ ("\n\n").data
  | .ok none => []
  | .err => generateFallbackDays destination endDay startDay

/-- The chunk loop `for (let startDay = 1; startDay <= duration;
startDay += 2)` with `endDay = min(startDay + 1, duration)`, structural on a
fuel bound on the remaining iterations (one unit of fuel per iteration;
`duration` units always suffice since `startDay` grows by 2). -/
def chunksFrom (provider : Nat → Nat → ChunkOutcome) (destination : List Char)
    (duration : Nat) : Nat → Nat → List Char
  | 0, _ => []
  | fuel + 1, startDay =>
    if startDay ≤ duration then
      chunkText destination startDay (min (startDay + 1) duration)
          (provider startDay (min (startDay + 1) duration))
        ++ chunksFrom provider destination duration fuel (startDay + 2)
    else []

/-- `itineraryText` after the chunk loop, before the final day-count check. -/
def rawChunks (provider : Nat → Nat → ChunkOutcome) (destination : List Char)
    (duration : Nat) : List Char :=
  chunksFrom provider destination duration duration 1

/-- The itinerary text `generateItinerary` builds: the chunk loop followed by
the final check that appends `generateFallbackDays(destination, duration,
dayCount + 1)` when the day-header count fell short of `duration`.  (For
`duration ≥ 1` this text is provably non-empty, so the JS
`itineraryText || generateDetailedItinerary(...)` default never replaces it.) -/
def generateItineraryText (provider : Nat → Nat → ChunkOutcome)
    (destination : List Char) (duration : Nat) : List Char :=
  let raw := rawChunks provider destination duration
  let dayCount := (scanHeaders raw).length
  if dayCount < duration then
    raw ++ generateFallbackDays destination duration (dayCount + 1)
  else raw

/-! ## Data model (source lines 38-59) -/

/-- Step status values. -/
inductive StepStatus
  | pending
  | in_progress
  | completed
  | failed
deriving DecidableEq, Repr

/-- Plan status values. -/
inductive PlanStatus
  | planning
  | in_progress
  | completed
  | failed
deriving DecidableEq, Repr

/-- Step results and other JS result objects, as association lists of string
fields, so the presence of a key such as `error` is expressible. -/
abbrev StepResult := List (String × String)

/-- A `TravelStep`.  `result` and `progress` are absent (`none`) until set. -/
structure TravelStep where
  id : String
  type : String
  status : StepStatus
  autonomous : Bool
  description : String
  result : Option StepResult := none
  progress : Option Nat := none
deriving DecidableEq, Repr

/-- A `TravelPlan`.  Timestamps are opaque naturals. -/
structure TravelPlan where
  id : String
  destination : String
  duration : Nat
  status : PlanStatus
  steps : List TravelStep
  createdAt : Nat
  updatedAt : Nat
deriving DecidableEq, Repr

/-- Default step used only to totalize list indexing (`getD`); never a value
of the program. -/
def defaultStep : TravelStep :=
  { id := "", type := "", status := .pending, autonomous := false, description := "" }

/-- Total indexing into a step list (`l[i]`, with the unused `defaultStep`
out of range).  A plain function of this file so that simp-normal forms of
library indexing never interfere with the lemmas about it. -/
def stepAt : List TravelStep → Nat → TravelStep
  | [], _ => defaultStep
  | s :: _, 0 => s
  | _ :: rest, n + 1 => stepAt rest n

/-! ## `createTravelPlan` (source lines 301-348) -/

/-- `createTravelPlan(destination, duration, preferences)`.  The opaque id
`plan_${Date.now()}_${random}` is abstracted as the parameter `planId`, and
`new Date()` as the parameter `now`. -/
def createTravelPlan (planId : String) (destination : String) (duration : Nat)
    (now : Nat) : TravelPlan :=
  { id := planId
    destination := destination
    duration := duration
    status := .planning
    steps := [
      { id := "step_weather_" ++ planId
        type := "weather_check"
        status := .pending
        autonomous := true
        description := "Check current and forecasted weather conditions for " ++ destination
        progress := some 0 },
      { id := "step_events_" ++ planId
        type := "events_search"
        status := .pending
        autonomous := true
        description := "Research local events, festivals, and activities in " ++ destination
        progress := some 0 },
      { id := "step_accommodation_" ++ planId
        type := "accommodation_search"
        status := .pending
        autonomous := true
        description := "Find suitable accommodations in " ++ destination
        progress := some 0 },
      { id := "step_itinerary_" ++ planId
        type := "itinerary_generation"
        status := .pending
        autonomous := true
        description := "Create a detailed " ++ toString duration
          ++ "-day itinerary with activities and recommendations"
        progress := some 0 } ]
    createdAt := now
    updatedAt := now }

/-- The part of `onUserMessage` (source lines 178-239) the persistence claim
is about: create the plan, write it to the durable store under key
`plan_${plan.id}`, and return it; `startAutonomousPlanning` only schedules the
first advancement iteration after the return, so no step has run yet. -/
structure MessageOutcome where
  plan : TravelPlan
  storeWrites : List (String × TravelPlan)
deriving DecidableEq

/-- Plan creation and persistence performed by `onUserMessage` before it
returns its response. -/
def onUserMessagePlan (planId destination : String) (duration : Nat)
    (now : Nat) : MessageOutcome :=
  let plan := createTravelPlan planId destination duration now
  { plan := plan, storeWrites := [("plan_" ++ plan.id, plan)] }

/-! ## `processNextStep` (source lines 359-425): one advancement iteration -/

/-- Index of the first `pending` step, as the linear scan with `break`
computes it. -/
def findPendingIdx : List TravelStep → Option Nat
  | [] => none
  | s :: rest =>
    if s.status = .pending then some 0
    else (findPendingIdx rest).map (· + 1)

/-- Replace the element at index `i` by `f` of it (in-place JS mutation of
`plan.steps[i]`). -/
def modifyIdx (f : TravelStep → TravelStep) : Nat → List TravelStep → List TravelStep
  | _, [] => []
  | 0, s :: rest => f s :: rest
  | n + 1, s :: rest => s :: modifyIdx f n rest

/-- One `stepUpdate` payload handed to `broadcastProgress`. -/
structure StepUpdate where
  stepId : String
  status : StepStatus
  result : Option StepResult := none
  thinking : String
deriving DecidableEq

/-- Result of one `processNextStep` iteration: the in-memory plan at the end,
the successive `setState` payloads, the `broadcastProgress` events, and
whether the iteration re-enters the loop (reaches the tail recursion after
the delay). -/
structure IterResult where
  plan : TravelPlan
  writes : List TravelPlan
  events : List StepUpdate
  reenters : Bool
deriving DecidableEq

/-- One iteration of `processNextStep`.  `execOut` is the outcome of the
`executeStep` call (its external calls make it an oracle: any result object or
a thrown error); `t1` and `t2` are the values of the two `new Date()`
mutation timestamps.  If no step is pending, the plan status is set to
`completed`, persisted, and the loop stops; otherwise the first pending step
goes `in_progress` (persisted, broadcast), then `completed` with the result
or `failed` on a thrown executor, the plan is persisted again and the loop
re-enters after the fixed delay. -/
def processNextStepIter (execOut : Except Unit StepResult) (t1 t2 : Nat)
    (plan : TravelPlan) : IterResult :=
  match findPendingIdx plan.steps with
  | none =>
    let planDone := { plan with status := PlanStatus.completed }
    { plan := planDone, writes := [planDone], events := [], reenters := false }
  | some i =>
    let st := stepAt plan.steps i
    let plan1 := { plan with
      steps := modifyIdx (fun s => { s with status := StepStatus.in_progress }) i plan.steps
      updatedAt := t1 }
    match execOut with
    | .ok r =>
      let plan2 := { plan1 with
        steps := modifyIdx
          (fun s => { s with status := StepStatus.completed, result := some r, progress := some 100 })
          i plan1.steps
        updatedAt := t2 }
      { plan := plan2
        writes := [plan1, plan2]
        events := [
          { stepId := st.id, status := .in_progress,
            thinking := "🔍 " ++ st.description ++ "..." },
          { stepId := st.id, status := .completed, result := some r,
            thinking := "✅ Task completed successfully" } ]
        reenters := true }
    | .error _ =>
      let plan2 := { plan1 with
        steps := modifyIdx (fun s => { s with status := StepStatus.failed }) i plan1.steps
        updatedAt := t2 }
      { plan := plan2
        writes := [plan1, plan2]
        events := [
          { stepId := st.id, status := .in_progress,
            thinking := "🔍 " ++ st.description ++ "..." } ]
        reenters := true }

/-- Number of pending steps. -/
def pendingCount (steps : List TravelStep) : Nat :=
  steps.countP (fun s => decide (s.status = StepStatus.pending))

/-- Repeated advancement iterations, one oracle entry
`(executor outcome, t1, t2)` per iteration. -/
def runAdvancement : List (Except Unit StepResult × Nat × Nat) → TravelPlan → TravelPlan
  | [], p => p
  | (e, t1, t2) :: rest, p => runAdvancement rest (processNextStepIter e t1 t2 p).plan

/-! ## `broadcastProgress` (source lines 87-102) -/

/-- Delivery of one event to the connected clients: every current client is
sent the message; a client whose `send` throws is removed from the set.
Returns the surviving client set and the list of clients that received the
event. -/
def broadcastOne {α : Type} (sendOk : α → Bool) (clients : List α) : List α × List α :=
  (clients.filter sendOk, clients.filter sendOk)

/-! ## `checkWeather` (source lines 446-492) -/

/-- Outcome of the `env.AI.run` generation call: it either throws, or returns
an object whose `response` field may be absent. -/
inductive AIOutcome
  | ok (response : Option String)
  | err

/-- `checkWeather(destination)`.  `hasKey` says whether `WEATHER_API_KEY` is
configured and `fetched` is the weather-API payload if the fetch succeeded;
both only select the prompt sent to the generation call, never the result
shape.  The result object is the association list of the fields the source
returns: the success branch returns `{type, destination, forecast,
recommendation}` (with a default forecast string when the response field is
falsy), and the catch branch returns the degraded
`{type, destination, forecast, recommendation}` fallback.  No branch ever
throws and no branch carries an `error` field. -/
def checkWeather (_hasKey : Bool) (_fetched : Option String) (ai : AIOutcome)
    (destination : String) : StepResult :=
  -- `weatherPrompt` (built from `hasKey`/`fetched`) feeds only the AI call.
  match ai with
  | .ok r =>
    [("type", "weather"), ("destination", destination),
     ("forecast",
       match r with
       | some s =>
         if s = "" then
           "Weather forecast for " ++ destination
             ++ ": Current conditions and 7-day outlook with travel recommendations."
         else s
       | none =>
         "Weather forecast for " ++ destination
           ++ ": Current conditions and 7-day outlook with travel recommendations."),
     ("recommendation", "Weather analysis completed for " ++ destination)]
  | .err =>
    [("type", "weather"), ("destination", destination),
     ("forecast",
       "Weather information temporarily unavailable for " ++ destination
         ++ ". Please check local weather sources for current conditions."),
     ("recommendation", "Weather data retrieval encountered an issue")]

/-! ## `analyzeUserMessage` (source lines 241-299) -/

/-- JS `\s` whitespace characters (the ASCII ones; the handful of exotic
Unicode space characters never arise in the claims). -/
def isSpaceJS (c : Char) : Bool :=
  c = ' ' ∨ c = '\t' ∨ c = '\n' ∨ c = '\r' ∨ c = '\x0b' ∨ c = '\x0c'

/-- Case-insensitive test that `l` starts with the word `day` (the
`(day|days)` tail of the duration regex; the optional `s` never affects the
captured digits). -/
def hasDayWord : List Char → Bool
  | c1 :: c2 :: c3 :: _ =>
    (c1 = 'd' ∨ c1 = 'D') ∧ (c2 = 'a' ∨ c2 = 'A') ∧ (c3 = 'y' ∨ c3 = 'Y')
  | _ => false

/-- Try the duration pattern `(\d+)\s*(day|days)/i` at the head of `l`:
a nonempty maximal digit run, optional whitespace, then `day`; on success the
captured value is the digit run's numeric value.  (Shrinking the greedy runs
can never rescue a failed attempt here, so maximal runs are exact.) -/
def tryDuration (l : List Char) : Option Nat :=
  match l.takeWhile Char.isDigit with
  | [] => none
  | ds =>
    if hasDayWord ((l.dropWhile Char.isDigit).dropWhile isSpaceJS) then
      some (parseNat ds)
    else none

/-- Leftmost match of the duration regex over the whole message. -/
def findDuration : List Char → Option Nat
  | [] => none
  | c :: rest =>
    match tryDuration (c :: rest) with
    | some n => some n
    | none => findDuration rest

/-- The `duration` variable of `analyzeUserMessage`: the captured day count,
or 3 when the message has no match. -/
def durationOf (message : String) : Nat :=
  (findDuration message.data).getD 3

/-- The `destination` variable of `analyzeUserMessage`.  The three extraction
regexes and the clean-up replaces are abstracted as the oracle list
`cleanCands` of cleaned candidate strings, one per matching pattern; the
source keeps the first whose length is in `(2, 50)` and otherwise falls back
to the literal `'your desired destination'`. -/
def destinationOf (cleanCands : List String) : String :=
  match cleanCands.find? (fun d => decide (2 < d.length) && decide (d.length < 50)) with
  | some d => d
  | none => "your desired destination"

/-! ## Store-failure model of one iteration (claim about `setState` retry) -/

/-- One `processNextStep` iteration against a store whose `put` can throw:
`putOk k` is whether the `k`-th `setState` call of this iteration succeeds.
The plan object is mutated in place (it lives in the `activePlans` map), so
`cachePlan` is the in-memory state when the iteration ends or aborts;
`putAttempts` counts the `setState` calls made; `aborted` is true when a
`setState` throw escaped the iteration (nothing catches it, and nothing
re-attempts a write). -/
structure StoreIterResult where
  putAttempts : Nat
  cachePlan : TravelPlan
  aborted : Bool
deriving DecidableEq

/-- The iteration of `processNextStep` with explicit store outcomes. -/
def processNextStepStore (execOut : Except Unit StepResult) (t1 t2 : Nat)
    (putOk : Nat → Bool) (plan : TravelPlan) : StoreIterResult :=
  match findPendingIdx plan.steps with
  | none =>
    let planDone := { plan with status := PlanStatus.completed }
    { putAttempts := 1, cachePlan := planDone, aborted := !putOk 0 }
  | some i =>
    let plan1 := { plan with
      steps := modifyIdx (fun s => { s with status := StepStatus.in_progress }) i plan.steps
      updatedAt := t1 }
    if putOk 0 then
      let plan2 :=
        match execOut with
        | .ok r => { plan1 with
            steps := modifyIdx
              (fun s =>
                { s with status := StepStatus.completed, result := some r, progress := some 100 })
              i plan1.steps
            updatedAt := t2 }
        | .error _ => { plan1 with
            steps := modifyIdx (fun s => { s with status := StepStatus.failed }) i plan1.steps
            updatedAt := t2 }
      { putAttempts := 2, cachePlan := plan2, aborted := !putOk 1 }
    else
      { putAttempts := 1, cachePlan := plan1, aborted := true }

/-! ## Helper lemmas on the step list -/

theorem stepAt_mem {l : List TravelStep} {i : Nat} (h : i < l.length) :
    stepAt l i ∈ l := by
  induction l generalizing i with
  | nil => simp at h
  | cons a rest ih =>
    cases i with
    | zero => exact List.mem_cons_self _ _
    | succ j =>
      exact List.mem_cons_of_mem _ (ih (by simpa using h))

theorem stepAt_default {l : List TravelStep} {i : Nat} (h : l.length ≤ i) :
    stepAt l i = defaultStep := by
  induction l generalizing i with
  | nil => rfl
  | cons a rest ih =>
    cases i with
    | zero => simp at h
    | succ j => exact ih (by simpa using h)

theorem findPendingIdx_none_iff (l : List TravelStep) :
    findPendingIdx l = none ↔ ∀ s ∈ l, s.status ≠ StepStatus.pending := by
  induction l with
  | nil => simp [findPendingIdx]
  | cons s rest ih =>
    by_cases h : s.status = StepStatus.pending
    · simp [findPendingIdx, h]
    · simp [findPendingIdx, h, Option.map_eq_none', ih]

theorem findPendingIdx_some_lt {l : List TravelStep} {i : Nat}
    (h : findPendingIdx l = some i) : i < l.length := by
  induction l generalizing i with
  | nil => simp [findPendingIdx] at h
  | cons s rest ih =>
    by_cases hs : s.status = StepStatus.pending
    · simp [findPendingIdx, hs] at h
      simp only [List.length_cons]
      omega
    · simp [findPendingIdx, hs, Option.map_eq_some'] at h
      obtain ⟨j, hj, rfl⟩ := h
      have := ih hj
      simp only [List.length_cons]
      omega

theorem findPendingIdx_some_pending {l : List TravelStep} {i : Nat}
    (h : findPendingIdx l = some i) :
    (stepAt l i).status = StepStatus.pending := by
  induction l generalizing i with
  | nil => simp [findPendingIdx] at h
  | cons s rest ih =>
    by_cases hs : s.status = StepStatus.pending
    · simp [findPendingIdx, hs] at h
      subst h
      exact hs
    · simp [findPendingIdx, hs, Option.map_eq_some'] at h
      obtain ⟨j, hj, rfl⟩ := h
      exact ih hj

theorem findPendingIdx_some_first {l : List TravelStep} {i : Nat}
    (h : findPendingIdx l = some i) :
    ∀ j, j < i → (stepAt l j).status ≠ StepStatus.pending := by
  induction l generalizing i with
  | nil => simp [findPendingIdx] at h
  | cons s rest ih =>
    by_cases hs : s.status = StepStatus.pending
    · simp [findPendingIdx, hs] at h
      omega
    · simp [findPendingIdx, hs, Option.map_eq_some'] at h
      obtain ⟨j', hj', rfl⟩ := h
      intro j hj
      cases j with
      | zero => exact hs
      | succ k => exact ih hj' k (by omega)

theorem findPendingIdx_le_of_pending {l : List TravelStep} {i : Nat}
    (hi : i < l.length) (hp : (stepAt l i).status = StepStatus.pending) :
    ∃ j, findPendingIdx l = some j ∧ j ≤ i := by
  cases hfind : findPendingIdx l with
  | none =>
    exact absurd hp ((findPendingIdx_none_iff l).mp hfind _ (stepAt_mem hi))
  | some j =>
    refine ⟨j, rfl, ?_⟩
    by_contra hgt
    exact findPendingIdx_some_first hfind i (by omega) hp

theorem modifyIdx_length (f : TravelStep → TravelStep) (i : Nat) (l : List TravelStep) :
    (modifyIdx f i l).length = l.length := by
  induction l generalizing i with
  | nil => cases i <;> rfl
  | cons s rest ih =>
    cases i with
    | zero => rfl
    | succ j => simpa [modifyIdx] using ih j

theorem modifyIdx_stepAt_ne (f : TravelStep → TravelStep) {i j : Nat} (l : List TravelStep)
    (h : j ≠ i) : stepAt (modifyIdx f i l) j = stepAt l j := by
  induction l generalizing i j with
  | nil => cases i <;> rfl
  | cons s rest ih =>
    cases i with
    | zero =>
      cases j with
      | zero => exact absurd rfl h
      | succ k => rfl
    | succ i' =>
      cases j with
      | zero => rfl
      | succ k => simpa [modifyIdx, stepAt] using ih (by omega)

theorem modifyIdx_stepAt_self (f : TravelStep → TravelStep) {i : Nat} (l : List TravelStep)
    (h : i < l.length) :
    stepAt (modifyIdx f i l) i = f (stepAt l i) := by
  induction l generalizing i with
  | nil => simp at h
  | cons s rest ih =>
    cases i with
    | zero => rfl
    | succ j => simpa [modifyIdx, stepAt] using ih (by simpa using h)

theorem modifyIdx_map {β : Type} (g : TravelStep → β) (f : TravelStep → TravelStep)
    (i : Nat) (l : List TravelStep) (h : ∀ s, g (f s) = g s) :
    (modifyIdx f i l).map g = l.map g := by
  induction l generalizing i with
  | nil => cases i <;> rfl
  | cons s rest ih =>
    cases i with
    | zero => simp [modifyIdx, h]
    | succ j => simp [modifyIdx, ih]

theorem countP_modifyIdx (p : TravelStep → Bool) (f : TravelStep → TravelStep)
    {i : Nat} (l : List TravelStep) (h : i < l.length) :
    (modifyIdx f i l).countP p + (if p (stepAt l i) then 1 else 0) =
      l.countP p + (if p (f (stepAt l i)) then 1 else 0) := by
  induction l generalizing i with
  | nil => simp at h
  | cons s rest ih =>
    cases i with
    | zero =>
      simp only [modifyIdx, List.countP_cons, stepAt]
      by_cases h1 : p s <;> by_cases h2 : p (f s) <;> simp [h1, h2]
    | succ j =>
      have ih' := ih (i := j) (by simpa using h)
      simp only [modifyIdx, List.countP_cons, stepAt]
      by_cases h1 : p s <;> simp only [h1, if_true, if_false] <;> omega

/-- Witness plan used to instantiate hypothesis-bearing theorems. -/
def wPlan : TravelPlan := createTravelPlan "p1" "Tokyo" 5 0

/-! ## Claim theorems: the advancement loop -/

/-- C2: an advancement iteration sets `Plan.status = completed` exactly when
no step remains pending: with no pending step it sets the status to
`completed` and persists that plan (regardless of failed steps), and with a
pending step present it leaves the plan's status untouched. -/
theorem advancement_completed_iff_no_pending
    (execOut : Except Unit StepResult) (t1 t2 : Nat) (plan : TravelPlan) :
    ((∀ s ∈ plan.steps, s.status ≠ StepStatus.pending) →
      (processNextStepIter execOut t1 t2 plan).plan.status = PlanStatus.completed ∧
      (processNextStepIter execOut t1 t2 plan).writes =
        [(processNextStepIter execOut t1 t2 plan).plan]) ∧
    ((∃ s ∈ plan.steps, s.status = StepStatus.pending) →
      (processNextStepIter execOut t1 t2 plan).plan.status = plan.status) := by
  constructor
  · intro hall
    have hnone : findPendingIdx plan.steps = none := (findPendingIdx_none_iff _).mpr hall
    simp [processNextStepIter, hnone]
  · rintro ⟨s, hs, hpend⟩
    cases hfind : findPendingIdx plan.steps with
    | none => exact absurd hpend ((findPendingIdx_none_iff _).mp hfind _ hs)
    | some i =>
      cases execOut with
      | ok r => simp [processNextStepIter, hfind]
      | error e => simp [processNextStepIter, hfind]

/-- Witness for C2 at a concrete plan: a freshly created plan has a pending
step, so the iteration leaves its status `planning`. -/
theorem advancement_completed_iff_no_pending_witness :
    (processNextStepIter (Except.ok []) 1 2 wPlan).plan.status = wPlan.status :=
  (advancement_completed_iff_no_pending (Except.ok []) 1 2 wPlan).2
    ⟨stepAt wPlan.steps 0, by decide, by decide⟩

/-- C3: an advancement iteration touches only the first pending step (any
step the iteration changes is the one `findPendingIdx` selects), so while
step `i` is still pending step `i+1` is left exactly as it was — in
particular it never transitions out of `pending` — and steps therefore leave
`pending` strictly in creation order. -/
theorem advancement_strict_order
    (execOut : Except Unit StepResult) (t1 t2 : Nat) (plan : TravelPlan) (i : Nat) :
    (∀ k, stepAt (processNextStepIter execOut t1 t2 plan).plan.steps k ≠
        stepAt plan.steps k → findPendingIdx plan.steps = some k) ∧
    ((stepAt plan.steps i).status = StepStatus.pending →
      stepAt (processNextStepIter execOut t1 t2 plan).plan.steps (i + 1) =
        stepAt plan.steps (i + 1)) := by
  have hsteps : ∀ k, findPendingIdx plan.steps ≠ some k →
      stepAt (processNextStepIter execOut t1 t2 plan).plan.steps k =
        stepAt plan.steps k := by
    intro k hk
    cases hfind : findPendingIdx plan.steps with
    | none => cases execOut <;> simp [processNextStepIter, hfind]
    | some j =>
      have hkj : k ≠ j := fun h => hk (h ▸ hfind)
      cases execOut <;>
        simp [processNextStepIter, hfind, modifyIdx_stepAt_ne _ _ hkj]
  constructor
  · intro k hk
    by_contra hne
    exact hk (hsteps k hne)
  · intro hp
    by_cases hi : i < plan.steps.length
    · obtain ⟨j, hj, hji⟩ := findPendingIdx_le_of_pending hi hp
      exact hsteps (i + 1) (by rw [hj]; intro h; injection h with h'; omega)
    · have hlen : (processNextStepIter execOut t1 t2 plan).plan.steps.length =
          plan.steps.length := by
        cases hfind : findPendingIdx plan.steps with
        | none => cases execOut <;> simp [processNextStepIter, hfind]
        | some j => cases execOut <;> simp [processNextStepIter, hfind, modifyIdx_length]
      rw [stepAt_default (by omega), stepAt_default (by omega)]

/-- Witness for C3 at a concrete plan: step 0 of a fresh plan is pending and
the iteration leaves step 1 exactly as it was. -/
theorem advancement_strict_order_witness :
    stepAt (processNextStepIter (Except.ok []) 1 2 wPlan).plan.steps 1 =
      stepAt wPlan.steps 1 :=
  (advancement_strict_order (Except.ok []) 1 2 wPlan 0).2 (by decide)

/-- C4: `createTravelPlan` builds a plan with exactly the four steps in the
fixed canonical order, all `pending`, plan status `planning`; `onUserMessage`
persists exactly that plan under `plan_${plan.id}` and returns it as is —
with every step still `pending`, i.e. before any step has executed. -/
theorem create_plan_canonical (planId destination : String) (duration now : Nat) :
    (createTravelPlan planId destination duration now).steps.map TravelStep.type =
      ["weather_check", "events_search", "accommodation_search", "itinerary_generation"] ∧
    (createTravelPlan planId destination duration now).steps.length = 4 ∧
    (createTravelPlan planId destination duration now).steps.map TravelStep.status =
      [StepStatus.pending, StepStatus.pending, StepStatus.pending, StepStatus.pending] ∧
    (createTravelPlan planId destination duration now).status = PlanStatus.planning ∧
    (onUserMessagePlan planId destination duration now).storeWrites =
      [("plan_" ++ planId, createTravelPlan planId destination duration now)] ∧
    (onUserMessagePlan planId destination duration now).plan =
      createTravelPlan planId destination duration now :=
  ⟨rfl, rfl, rfl, rfl, rfl, rfl⟩

/-! ## Effects of one iteration: broadcasts, timestamps, store writes -/

/-- Shared: when the executor returns a result, the selected step ends the
iteration `completed` and the loop re-enters. -/
theorem iter_ok_completes (r : StepResult) (t1 t2 : Nat) (plan : TravelPlan) {i : Nat}
    (h : findPendingIdx plan.steps = some i) :
    (stepAt (processNextStepIter (Except.ok r) t1 t2 plan).plan.steps i).status =
      StepStatus.completed ∧
    (processNextStepIter (Except.ok r) t1 t2 plan).reenters = true := by
  have hi : i < plan.steps.length := findPendingIdx_some_lt h
  have hi1 : i < (modifyIdx (fun s => { s with status := StepStatus.in_progress }) i
      plan.steps).length := by
    rw [modifyIdx_length]; exact hi
  refine ⟨?_, by simp [processNextStepIter, h]⟩
  simp only [processNextStepIter, h]
  rw [modifyIdx_stepAt_self _ _ hi1]

/-- A plan whose steps have all already completed (used as a concrete input
to the terminal write of the advancement loop). -/
def wPlanDone : TravelPlan :=
  { wPlan with steps := wPlan.steps.map (fun s => { s with status := StepStatus.completed }) }

/-- C7 counterexample: on the terminal advancement write — the one that sets
`Plan.status = completed` — the persisted plan keeps its stale `updatedAt`
(here the creation timestamp 0) even though the mutation happens at times
5 and 7, so not every persisted mutation refreshes `updatedAt`. -/
theorem updatedAt_stale_on_completion :
    (processNextStepIter (Except.ok []) 5 7 wPlanDone).plan.status = PlanStatus.completed ∧
    (processNextStepIter (Except.ok []) 5 7 wPlanDone).writes.map TravelPlan.updatedAt
      = [0] := by decide

/-- C7 (amended): during a step-processing iteration both persisted writes
refresh `updatedAt` (to `t1` for the `in_progress` write, `t2` for the
result/failure write) and every write leaves `id`, `destination`, `duration`
and the step sequence (their ids in order) unchanged; the final write that
sets `status = completed`, however, leaves `updatedAt` unchanged. -/
theorem updatedAt_refresh_on_writes (execOut : Except Unit StepResult) (t1 t2 : Nat)
    (plan : TravelPlan) :
    (∀ i, findPendingIdx plan.steps = some i →
      (processNextStepIter execOut t1 t2 plan).writes.map TravelPlan.updatedAt = [t1, t2]) ∧
    (findPendingIdx plan.steps = none →
      (processNextStepIter execOut t1 t2 plan).writes.map TravelPlan.updatedAt
        = [plan.updatedAt]) ∧
    (∀ w ∈ (processNextStepIter execOut t1 t2 plan).writes,
      w.id = plan.id ∧ w.destination = plan.destination ∧ w.duration = plan.duration ∧
      w.steps.map TravelStep.id = plan.steps.map TravelStep.id) := by
  refine ⟨?_, ?_, ?_⟩
  · intro i h
    cases execOut <;> simp [processNextStepIter, h]
  · intro h
    cases execOut <;> simp [processNextStepIter, h]
  · intro w hw
    cases hfind : findPendingIdx plan.steps with
    | none =>
      simp [processNextStepIter, hfind] at hw
      simp [hw]
    | some i =>
      cases execOut with
      | ok r =>
        simp [processNextStepIter, hfind] at hw
        rcases hw with hw | hw <;> subst hw <;> refine ⟨rfl, rfl, rfl, ?_⟩
        · refine modifyIdx_map TravelStep.id _ i plan.steps ?_
          exact fun _ => rfl
        · refine (modifyIdx_map TravelStep.id _ i _ ?_).trans
            (modifyIdx_map TravelStep.id _ i plan.steps ?_)
          · exact fun _ => rfl
          · exact fun _ => rfl
      | error e =>
        simp [processNextStepIter, hfind] at hw
        rcases hw with hw | hw <;> subst hw <;> refine ⟨rfl, rfl, rfl, ?_⟩
        · refine modifyIdx_map TravelStep.id _ i plan.steps ?_
          exact fun _ => rfl
        · refine (modifyIdx_map TravelStep.id _ i _ ?_).trans
            (modifyIdx_map TravelStep.id _ i plan.steps ?_)
          · exact fun _ => rfl
          · exact fun _ => rfl

/-- Witness for C7 at a concrete plan: both writes of a step-processing
iteration carry the fresh timestamps. -/
theorem updatedAt_refresh_on_writes_witness :
    (processNextStepIter (Except.ok []) 1 2 wPlan).writes.map TravelPlan.updatedAt
      = [1, 2] :=
  (updatedAt_refresh_on_writes (Except.ok []) 1 2 wPlan).1 0 (by decide)

/-- C6 counterexample: when the executor throws, the step is marked `failed`
but the iteration broadcasts no failure event — the only `broadcastProgress`
call of the iteration is the `in_progress` one. -/
theorem failed_step_not_broadcast :
    (stepAt (processNextStepIter (Except.error ()) 1 2 wPlan).plan.steps 0).status
      = StepStatus.failed ∧
    (processNextStepIter (Except.error ()) 1 2 wPlan).events.map StepUpdate.status
      = [StepStatus.in_progress] := by decide

/-- C6 (amended): each step-processing iteration broadcasts the `in_progress`
event carrying the step description, and on executor success additionally the
`completed` event carrying the result; on executor error the step is marked
`failed` with no broadcast (the failure is only logged).  Each broadcast is
attempted to every currently connected client, and is received by all of them
whenever no send fails. -/
theorem broadcast_step_transitions (execOut : Except Unit StepResult) (t1 t2 : Nat)
    (plan : TravelPlan) :
    (∀ i, findPendingIdx plan.steps = some i →
      (∀ r, execOut = Except.ok r →
        (processNextStepIter execOut t1 t2 plan).events =
          [{ stepId := (stepAt plan.steps i).id, status := StepStatus.in_progress,
             thinking := "🔍 " ++ (stepAt plan.steps i).description ++ "..." },
           { stepId := (stepAt plan.steps i).id, status := StepStatus.completed,
             result := some r, thinking := "✅ Task completed successfully" }]) ∧
      (∀ e, execOut = Except.error e →
        (processNextStepIter execOut t1 t2 plan).events =
          [{ stepId := (stepAt plan.steps i).id, status := StepStatus.in_progress,
             thinking := "🔍 " ++ (stepAt plan.steps i).description ++ "..." }] ∧
        (stepAt (processNextStepIter execOut t1 t2 plan).plan.steps i).status
          = StepStatus.failed)) ∧
    (∀ (clients : List String),
      (broadcastOne (fun _ => true) clients).2 = clients) := by
  constructor
  · intro i h
    constructor
    · rintro r rfl
      simp [processNextStepIter, h]
    · rintro e rfl
      have hi : i < plan.steps.length := findPendingIdx_some_lt h
      have hi1 : i < (modifyIdx (fun s => { s with status := StepStatus.in_progress }) i
          plan.steps).length := by
        rw [modifyIdx_length]; exact hi
      refine ⟨by simp [processNextStepIter, h], ?_⟩
      simp only [processNextStepIter, h]
      rw [modifyIdx_stepAt_self _ _ hi1]
  · intro clients
    simp [broadcastOne]

/-- Witness for C6 at a concrete plan: the two events of a successful
weather-step iteration. -/
theorem broadcast_step_transitions_witness :
    (processNextStepIter (Except.ok []) 1 2 wPlan).events =
      [{ stepId := (stepAt wPlan.steps 0).id, status := StepStatus.in_progress,
         thinking := "🔍 " ++ (stepAt wPlan.steps 0).description ++ "..." },
       { stepId := (stepAt wPlan.steps 0).id, status := StepStatus.completed,
         result := some [], thinking := "✅ Task completed successfully" }] :=
  ((broadcast_step_transitions (Except.ok []) 1 2 wPlan).1 0 (by decide)).1 [] rfl

/-- C10 counterexample: with the store down, the failing `setState` of an
advancement iteration is attempted exactly once — there is no retry — and the
iteration aborts. -/
theorem store_write_not_retried :
    (processNextStepStore (Except.ok []) 1 2 (fun _ => false) wPlan).putAttempts = 1 ∧
    (processNextStepStore (Except.ok []) 1 2 (fun _ => false) wPlan).aborted = true := by
  decide

/-- C10 (amended): when the first persistence write of an iteration fails, it
is attempted exactly once (never retried) and the thrown store error aborts
the iteration; the in-memory plan held in `activePlans` is not rolled back —
it equals the very payload the failed write was persisting. -/
theorem store_failure_aborts_without_retry (execOut : Except Unit StepResult)
    (t1 t2 : Nat) (putOk : Nat → Bool) (plan : TravelPlan) (h : putOk 0 = false) :
    (processNextStepStore execOut t1 t2 putOk plan).putAttempts = 1 ∧
    (processNextStepStore execOut t1 t2 putOk plan).aborted = true ∧
    (processNextStepStore execOut t1 t2 putOk plan).cachePlan =
      (processNextStepIter execOut t1 t2 plan).writes.headD plan := by
  cases hfind : findPendingIdx plan.steps with
  | none =>
    cases execOut <;> simp [processNextStepStore, processNextStepIter, hfind, h]
  | some i =>
    cases execOut <;> simp [processNextStepStore, processNextStepIter, hfind, h]

/-- Witness for C10 at a concrete plan and failing store. -/
theorem store_failure_aborts_without_retry_witness :
    (processNextStepStore (Except.error ()) 1 2 (fun _ => false) wPlan).putAttempts = 1 :=
  (store_failure_aborts_without_retry (Except.error ()) 1 2 (fun _ => false) wPlan rfl).1

/-! ## `checkWeather`: degraded results -/

/-- C5 counterexample: with the weather credential missing the result object
of `checkWeather` carries no `error` field at all (whether the generation
call succeeds or throws), so in particular no `error: "not configured"`. -/
theorem weather_no_error_field :
    ((checkWeather false none (AIOutcome.ok (some "Sunny")) "Paris").lookup "error"
      = none) ∧
    ((checkWeather false none AIOutcome.err "Paris").lookup "error" = none) := by decide

/-- C5 (amended): `checkWeather` never throws — every provider behaviour
(missing credential, failed fetch, failed generation call) yields a result
object with the fields `type`, `destination`, `forecast`, `recommendation`
and no `error` field; when the generation call throws, `forecast` is the
human-readable fallback string; and a step executing it still reaches
`completed`, after which the loop re-enters to advance the plan. -/
theorem checkWeather_degraded_result (hk : Bool) (fetched : Option String)
    (ai : AIOutcome) (destination : String) :
    (checkWeather hk fetched ai destination).lookup "error" = none ∧
    ((checkWeather hk fetched ai destination).map Prod.fst
      = ["type", "destination", "forecast", "recommendation"]) ∧
    (ai = AIOutcome.err →
      (checkWeather hk fetched ai destination).lookup "forecast" =
        some ("Weather information temporarily unavailable for " ++ destination
          ++ ". Please check local weather sources for current conditions.")) ∧
    (∀ (t1 t2 : Nat) (plan : TravelPlan) (i : Nat),
      findPendingIdx plan.steps = some i →
      (stepAt (processNextStepIter
          (Except.ok (checkWeather hk fetched ai destination)) t1 t2 plan).plan.steps
        i).status = StepStatus.completed ∧
      (processNextStepIter (Except.ok (checkWeather hk fetched ai destination)) t1 t2
        plan).reenters = true) := by
  refine ⟨?_, ?_, ?_, ?_⟩
  · cases ai <;> rfl
  · cases ai <;> rfl
  · rintro rfl
    rfl
  · intro t1 t2 plan i h
    exact iter_ok_completes _ t1 t2 plan h

/-- Witness for C5: the missing-credential, generation-throws case on a
concrete plan — fallback forecast, no `error` field, step completed. -/
theorem checkWeather_degraded_result_witness :
    ((checkWeather false none AIOutcome.err "Paris").lookup "forecast" =
      some ("Weather information temporarily unavailable for Paris. Please check local weather sources for current conditions.")) ∧
    (stepAt (processNextStepIter (Except.ok (checkWeather false none AIOutcome.err "Paris"))
        1 2 wPlan).plan.steps 0).status = StepStatus.completed :=
  ⟨by
    have h := (checkWeather_degraded_result false none AIOutcome.err "Paris").2.2.1 rfl
    simpa using h,
   ((checkWeather_degraded_result false none AIOutcome.err "Paris").2.2.2 1 2 wPlan 0
      (by decide)).1⟩

/-! ## Termination of the advancement loop -/

theorem exists_stepAt_of_mem {l : List TravelStep} {x : TravelStep} (h : x ∈ l) :
    ∃ k, k < l.length ∧ stepAt l k = x := by
  induction l with
  | nil => simp at h
  | cons s rest ih =>
    rcases List.mem_cons.mp h with rfl | h'
    · exact ⟨0, by simp, rfl⟩
    · obtain ⟨k, hk, hs⟩ := ih h'
      exact ⟨k + 1, by simpa using hk, hs⟩

theorem pendingCount_zero_iff (l : List TravelStep) :
    pendingCount l = 0 ↔ ∀ s ∈ l, s.status ≠ StepStatus.pending := by
  rw [pendingCount, List.countP_eq_zero]
  simp

theorem findPendingIdx_none_iff_count (l : List TravelStep) :
    findPendingIdx l = none ↔ pendingCount l = 0 := by
  rw [findPendingIdx_none_iff, pendingCount_zero_iff]

theorem pendingCount_modifyIdx_out (f : TravelStep → TravelStep) {i : Nat}
    (l : List TravelStep) (h : i < l.length)
    (hin : (stepAt l i).status = StepStatus.pending)
    (hout : (f (stepAt l i)).status ≠ StepStatus.pending) :
    pendingCount (modifyIdx f i l) + 1 = pendingCount l := by
  have hc := countP_modifyIdx (fun s => decide (s.status = StepStatus.pending)) f l h
  rw [if_pos (by simp [hin]), if_neg (by simp [hout])] at hc
  simpa [pendingCount] using hc

theorem pendingCount_modifyIdx_keep (f : TravelStep → TravelStep) {i : Nat}
    (l : List TravelStep) (h : i < l.length)
    (hin : (stepAt l i).status ≠ StepStatus.pending)
    (hout : (f (stepAt l i)).status ≠ StepStatus.pending) :
    pendingCount (modifyIdx f i l) = pendingCount l := by
  have hc := countP_modifyIdx (fun s => decide (s.status = StepStatus.pending)) f l h
  rw [if_neg (by simp [hin]), if_neg (by simp [hout])] at hc
  simpa [pendingCount] using hc

/-- Shared: a step-processing iteration moves exactly one step out of
`pending`. -/
theorem iter_pendingCount (execOut : Except Unit StepResult) (t1 t2 : Nat)
    (plan : TravelPlan) {i : Nat} (h : findPendingIdx plan.steps = some i) :
    pendingCount (processNextStepIter execOut t1 t2 plan).plan.steps + 1 =
      pendingCount plan.steps := by
  have hi : i < plan.steps.length := findPendingIdx_some_lt h
  have hp : (stepAt plan.steps i).status = StepStatus.pending :=
    findPendingIdx_some_pending h
  have hlen1 : i < (modifyIdx (fun s => { s with status := StepStatus.in_progress }) i
      plan.steps).length := by
    rw [modifyIdx_length]; exact hi
  have hout1 := pendingCount_modifyIdx_out
    (fun s => { s with status := StepStatus.in_progress }) plan.steps hi hp
    (by intro hc; simp at hc)
  cases execOut with
  | ok r =>
    have hkeep := pendingCount_modifyIdx_keep
      (fun s =>
        { s with status := StepStatus.completed, result := some r, progress := some 100 })
      (modifyIdx (fun s => { s with status := StepStatus.in_progress }) i plan.steps) hlen1
      (by rw [modifyIdx_stepAt_self _ _ hi]; intro hc; simp at hc)
      (by intro hc; simp at hc)
    simp only [processNextStepIter, h]
    omega
  | error e =>
    have hkeep := pendingCount_modifyIdx_keep
      (fun s => { s with status := StepStatus.failed })
      (modifyIdx (fun s => { s with status := StepStatus.in_progress }) i plan.steps) hlen1
      (by rw [modifyIdx_stepAt_self _ _ hi]; intro hc; simp at hc)
      (by intro hc; simp at hc)
    simp only [processNextStepIter, h]
    omega

/-- Shared: a step-processing iteration leaves no step `in_progress` if the
input plan had none (the selected step ends `completed` or `failed`). -/
theorem iter_no_in_progress (execOut : Except Unit StepResult) (t1 t2 : Nat)
    (plan : TravelPlan) {i : Nat} (h : findPendingIdx plan.steps = some i)
    (hno : ∀ s ∈ plan.steps, s.status ≠ StepStatus.in_progress) :
    ∀ s ∈ (processNextStepIter execOut t1 t2 plan).plan.steps,
      s.status ≠ StepStatus.in_progress := by
  have hi : i < plan.steps.length := findPendingIdx_some_lt h
  have hlen1 : i < (modifyIdx (fun s => { s with status := StepStatus.in_progress }) i
      plan.steps).length := by
    rw [modifyIdx_length]; exact hi
  intro s hs
  obtain ⟨k, hk, hsk⟩ := exists_stepAt_of_mem hs
  subst hsk
  cases execOut with
  | ok r =>
    simp only [processNextStepIter, h] at hk ⊢
    by_cases hki : k = i
    · subst hki
      rw [modifyIdx_stepAt_self _ _ hlen1]
      intro hcontra
      simp at hcontra
    · rw [modifyIdx_stepAt_ne _ _ hki, modifyIdx_stepAt_ne _ _ hki]
      rw [modifyIdx_length, modifyIdx_length] at hk
      exact hno _ (stepAt_mem hk)
  | error e =>
    simp only [processNextStepIter, h] at hk ⊢
    by_cases hki : k = i
    · subst hki
      rw [modifyIdx_stepAt_self _ _ hlen1]
      intro hcontra
      simp at hcontra
    · rw [modifyIdx_stepAt_ne _ _ hki, modifyIdx_stepAt_ne _ _ hki]
      rw [modifyIdx_length, modifyIdx_length] at hk
      exact hno _ (stepAt_mem hk)

/-- Shared: running one oracle entry per pending step plus one final entry
drives any plan without an `in_progress` step to `completed` with no pending
and no `in_progress` step left. -/
theorem runAdvancement_terminal (oracle : List (Except Unit StepResult × Nat × Nat)) :
    ∀ plan : TravelPlan, (∀ s ∈ plan.steps, s.status ≠ StepStatus.in_progress) →
    oracle.length = pendingCount plan.steps + 1 →
    (runAdvancement oracle plan).status = PlanStatus.completed ∧
    pendingCount (runAdvancement oracle plan).steps = 0 ∧
    (∀ s ∈ (runAdvancement oracle plan).steps, s.status ≠ StepStatus.in_progress) := by
  induction oracle with
  | nil =>
    intro plan _ hlen
    simp at hlen
  | cons o rest ih =>
    obtain ⟨e, t1, t2⟩ := o
    intro plan hno hlen
    cases hfind : findPendingIdx plan.steps with
    | none =>
      have hpc : pendingCount plan.steps = 0 := (findPendingIdx_none_iff_count _).mp hfind
      have hrest : rest = [] := by
        apply List.eq_nil_of_length_eq_zero
        simp only [List.length_cons] at hlen
        omega
      subst hrest
      have hplan : runAdvancement [(e, t1, t2)] plan =
          { plan with status := PlanStatus.completed } := by
        simp [runAdvancement, processNextStepIter, hfind]
      rw [hplan]
      exact ⟨rfl, hpc, hno⟩
    | some i =>
      have hdec := iter_pendingCount e t1 t2 plan hfind
      have hno' := iter_no_in_progress e t1 t2 plan hfind hno
      have hlen' : rest.length = pendingCount (processNextStepIter e t1 t2 plan).plan.steps
          + 1 := by
        simp only [List.length_cons] at hlen
        omega
      simpa only [runAdvancement] using ih (processNextStepIter e t1 t2 plan).plan hno' hlen'

/-- C8: the advancement loop terminates.  Each step-processing iteration
moves exactly one step out of `pending` (last conjunct), so for a plan with
no step stuck `in_progress`, one iteration per pending step plus the final
one brings every step to a terminal state (`completed` or `failed`), sets the
plan status to `completed`, and a further iteration does not re-enter the
loop. -/
theorem advancement_terminates (plan : TravelPlan)
    (oracle : List (Except Unit StepResult × Nat × Nat))
    (hno : ∀ s ∈ plan.steps, s.status ≠ StepStatus.in_progress)
    (hlen : oracle.length = pendingCount plan.steps + 1) :
    (runAdvancement oracle plan).status = PlanStatus.completed ∧
    (∀ s ∈ (runAdvancement oracle plan).steps,
      s.status = StepStatus.completed ∨ s.status = StepStatus.failed) ∧
    (∀ (e : Except Unit StepResult) (t1 t2 : Nat),
      (processNextStepIter e t1 t2 (runAdvancement oracle plan)).reenters = false) ∧
    (∀ (q : TravelPlan) (e : Except Unit StepResult) (t1 t2 : Nat) (j : Nat),
      findPendingIdx q.steps = some j →
      pendingCount (processNextStepIter e t1 t2 q).plan.steps + 1 = pendingCount q.steps) := by
  obtain ⟨h1, h2, h3⟩ := runAdvancement_terminal oracle plan hno hlen
  have hfin : findPendingIdx (runAdvancement oracle plan).steps = none :=
    (findPendingIdx_none_iff_count _).mpr h2
  refine ⟨h1, ?_, ?_, ?_⟩
  · intro s hs
    have hnp : s.status ≠ StepStatus.pending := (pendingCount_zero_iff _).mp h2 s hs
    have hni : s.status ≠ StepStatus.in_progress := h3 s hs
    cases hstat : s.status with
    | pending => exact absurd hstat hnp
    | in_progress => exact absurd hstat hni
    | completed => exact Or.inl rfl
    | failed => exact Or.inr rfl
  · intro e t1 t2
    simp [processNextStepIter, hfin]
  · intro q e t1 t2 j hj
    exact iter_pendingCount e t1 t2 q hj

/-- Witness for C8 at a concrete plan: a fresh 4-step plan reaches
`completed` after 5 iterations even with one failing executor. -/
theorem advancement_terminates_witness :
    (runAdvancement [(Except.ok [], 1, 2), (Except.error (), 3, 4), (Except.ok [], 5, 6),
        (Except.ok [], 7, 8), (Except.ok [], 9, 10)] wPlan).status = PlanStatus.completed :=
  (advancement_terminates wPlan
    [(Except.ok [], 1, 2), (Except.error (), 3, 4), (Except.ok [], 5, 6),
     (Except.ok [], 7, 8), (Except.ok [], 9, 10)] (by decide) (by decide)).1

/-! ## Duration and destination analysis -/

/-- C9 counterexample: a message stating a zero day count produces a plan
duration of 0, not a positive one — `(\d+)` matches `0` and `parseInt` keeps
it. -/
theorem duration_zero_message :
    durationOf "Plan a trip to Paris for 0 days" = 0 := by decide

/-- C9 (amended): the analysed duration is the first day count stated in the
message — which may be `0`, the only way the result drops below 1 — and
defaults to 3 when the message states no day count; the analysed destination
is always a non-empty string (an extracted candidate passes the length guard
`2 < len < 50`, and otherwise the non-empty fallback literal is used). -/
theorem analysis_duration_destination (message : String) (cleanCands : List String) :
    (1 ≤ durationOf message ∨ findDuration message.data = some 0) ∧
    (findDuration message.data = none → durationOf message = 3) ∧
    0 < (destinationOf cleanCands).length := by
  refine ⟨?_, ?_, ?_⟩
  · cases hfind : findDuration message.data with
    | none =>
      left
      simp [durationOf, hfind]
    | some v =>
      cases v with
      | zero => exact Or.inr rfl
      | succ k =>
        left
        simp [durationOf, hfind]
  · intro h
    simp [durationOf, h]
  · cases hfind : cleanCands.find?
        (fun d => decide (2 < d.length) && decide (d.length < 50)) with
    | none =>
      simp only [destinationOf, hfind]
      decide
    | some d =>
      have hd := List.find?_some hfind
      simp only [Bool.and_eq_true, decide_eq_true_eq] at hd
      simp only [destinationOf, hfind]
      omega

/-- Witness for C9: a message with no day count gets the default duration 3. -/
theorem analysis_duration_destination_witness :
    durationOf "Visit Paris" = 3 :=
  (analysis_duration_destination "Visit Paris" []).2.1 (by decide)

/-! ## Decimal rendering round-trip -/

theorem digitChar_isDigit {n : Nat} (h : n < 10) : (Nat.digitChar n).isDigit := by
  interval_cases n <;> decide

theorem digitChar_val {n : Nat} (h : n < 10) : (Nat.digitChar n).toNat - 48 = n := by
  interval_cases n <;> decide

theorem natDecimalAux_spec : ∀ fuel n : Nat, n < fuel →
    natDecimalAux fuel n ≠ [] ∧ (∀ c ∈ natDecimalAux fuel n, c.isDigit) ∧
    parseNat (natDecimalAux fuel n) = n := by
  intro fuel
  induction fuel with
  | zero => intro n h; omega
  | succ f ih =>
    intro n hn
    by_cases h10 : n < 10
    · simp only [natDecimalAux, if_pos h10]
      refine ⟨by simp, ?_, ?_⟩
      · intro c hc
        simp only [List.mem_singleton] at hc
        subst hc
        exact digitChar_isDigit h10
      · show parseNat [Nat.digitChar n] = n
        have := digitChar_val h10
        simp [parseNat]
        omega
    · have hrec := ih (n / 10) (by omega)
      have hmod : n % 10 < 10 := Nat.mod_lt _ (by norm_num)
      simp only [natDecimalAux, if_neg h10]
      refine ⟨by simp, ?_, ?_⟩
      · intro c hc
        rcases List.mem_append.mp hc with h | h
        · exact hrec.2.1 c h
        · simp only [List.mem_singleton] at h
          subst h
          exact digitChar_isDigit hmod
      · show parseNat (natDecimalAux f (n / 10) ++ [Nat.digitChar (n % 10)]) = n
        have hval := digitChar_val hmod
        rw [parseNat, List.foldl_append]
        have hfold : List.foldl (fun a c => 10 * a + (c.toNat - 48)) 0
            (natDecimalAux f (n / 10)) = n / 10 := hrec.2.2
        rw [hfold]
        simp only [List.foldl]
        omega

theorem natDecimal_ne_nil (n : Nat) : natDecimal n ≠ [] :=
  (natDecimalAux_spec (n + 1) n (by omega)).1

theorem natDecimal_digits (n : Nat) : ∀ c ∈ natDecimal n, c.isDigit :=
  (natDecimalAux_spec (n + 1) n (by omega)).2.1

theorem parseNat_natDecimal (n : Nat) : parseNat (natDecimal n) = n :=
  (natDecimalAux_spec (n + 1) n (by omega)).2.2

/-! ## Scanner lemmas -/

theorem tryHeader_cons_not_star {c : Char} {l : List Char} (h : c ≠ '*') :
    tryHeader (c :: l) = none := by
  rw [tryHeader, if_neg]
  intro hc
  rw [show (c :: l).take 6 = c :: l.take 5 from rfl] at hc
  simp only [headerTag] at hc
  injection hc with h1 _
  exact h h1

theorem tryHeader_cons2_not_star {c1 c2 : Char} {l : List Char} (h : c2 ≠ '*') :
    tryHeader (c1 :: c2 :: l) = none := by
  rw [tryHeader, if_neg]
  intro hc
  rw [show (c1 :: c2 :: l).take 6 = c1 :: c2 :: l.take 4 from rfl] at hc
  simp only [headerTag] at hc
  injection hc with _ h2
  injection h2 with h2 _
  exact h h2

theorem tryHeader_cons3_not_D {c1 c2 c3 : Char} {l : List Char} (h : c3 ≠ 'D') :
    tryHeader (c1 :: c2 :: c3 :: l) = none := by
  rw [tryHeader, if_neg]
  intro hc
  rw [show (c1 :: c2 :: c3 :: l).take 6 = c1 :: c2 :: c3 :: l.take 3 from rfl] at hc
  simp only [headerTag] at hc
  injection hc with _ h2
  injection h2 with _ h3
  injection h3 with h3 _
  exact h h3

theorem scanHeaders_cons_some {c : Char} {l : List Char} {n : Nat} {r : List Char}
    (h : tryHeader (c :: l) = some (n, r)) :
    scanHeaders (c :: l) = n :: scanHeaders l := by
  simp only [scanHeaders, h]

theorem scanHeaders_cons_none {c : Char} {l : List Char}
    (h : tryHeader (c :: l) = none) :
    scanHeaders (c :: l) = scanHeaders l := by
  simp only [scanHeaders, h]

theorem scanHeaders_starFree_append {a : List Char} (h : ∀ c ∈ a, c ≠ '*')
    (b : List Char) : scanHeaders (a ++ b) = scanHeaders b := by
  induction a with
  | nil => rfl
  | cons c rest ih =>
    have hc : c ≠ '*' := h c (List.mem_cons_self _ _)
    rw [List.cons_append, scanHeaders_cons_none (tryHeader_cons_not_star hc)]
    exact ih (fun x hx => h x (List.mem_cons_of_mem _ hx))

theorem starFree_append {a b : List Char} (ha : ∀ c ∈ a, c ≠ '*')
    (hb : ∀ c ∈ b, c ≠ '*') : ∀ c ∈ a ++ b, c ≠ '*' := by
  intro c hc
  rcases List.mem_append.mp hc with h | h
  · exact ha c h
  · exact hb c h

theorem starFree_cons {x : Char} {a : List Char} (hx : x ≠ '*')
    (ha : ∀ c ∈ a, c ≠ '*') : ∀ c ∈ x :: a, c ≠ '*' := by
  intro c hc
  rcases List.mem_cons.mp hc with rfl | h
  · exact hx
  · exact ha c h

theorem starFree_of_digits {l : List Char} (h : ∀ c ∈ l, c.isDigit) :
    ∀ c ∈ l, c ≠ '*' := by
  intro c hc hEq
  subst hEq
  exact absurd (h _ hc) (by decide)

theorem takeWhile_append_stop {p : Char → Bool} {xs : List Char} (h : ∀ c ∈ xs, p c)
    {y : Char} (hy : p y = false) (ys : List Char) :
    (xs ++ y :: ys).takeWhile p = xs ∧ (xs ++ y :: ys).dropWhile p = y :: ys := by
  induction xs with
  | nil => simp [List.takeWhile_cons, List.dropWhile_cons, hy]
  | cons x xs ih =>
    have hx : p x = true := h x (List.mem_cons_self _ _)
    have ih' := ih (fun c hc => h c (List.mem_cons_of_mem _ hc))
    simp [List.takeWhile_cons, List.dropWhile_cons, hx, ih'.1, ih'.2]

/-- The scanner recognizes a well-formed header head-on: `**Day ` followed by
a nonempty digit run, a colon, and anything. -/
theorem tryHeader_header {digits : List Char} (tail : List Char)
    (hne : digits ≠ []) (hdig : ∀ c ∈ digits, c.isDigit) :
    tryHeader (headerTag ++ (digits ++ ':' :: tail)) = some (parseNat digits, tail) := by
  have hcolon : Char.isDigit ':' = false := by decide
  have htd := takeWhile_append_stop hdig hcolon tail
  have htake : (headerTag ++ (digits ++ ':' :: tail)).take 6 = headerTag := by
    rw [show (6 : Nat) = headerTag.length from rfl, List.take_left]
  have hdrop : (headerTag ++ (digits ++ ':' :: tail)).drop 6 = digits ++ ':' :: tail := by
    rw [show (6 : Nat) = headerTag.length from rfl, List.drop_left]
  obtain ⟨d, ds, rfl⟩ : ∃ d ds, digits = d :: ds := by
    cases digits with
    | nil => exact absurd rfl hne
    | cons d ds => exact ⟨d, ds, rfl⟩
  rw [tryHeader, if_pos htake, hdrop, htd.1, htd.2]
  rfl

/-- Scanning one fallback day block (for a destination containing no `*`)
yields exactly its day number, then continues after the block. -/
theorem scanHeaders_fallbackBlock {dest : List Char} (hdest : ∀ c ∈ dest, c ≠ '*')
    (day : Nat) (t : List Char) :
    scanHeaders (fallbackBlock dest day ++ t) = day :: scanHeaders t := by
  have hdig := natDecimal_digits day
  have hne := natDecimal_ne_nil day
  -- Regroup the block (plus trailing text) around the header pattern.
  have hdecomp : fallbackBlock dest day ++ t =
      headerTag ++ (natDecimal day ++ ':' ::
        ((" Explore ").data ++ dest ++ ('*' :: '*' :: '\n' ::
          (mornLine ++ lunchPre ++ dest ++ lunchSuf ++ aftLine ++ eveLine ++ t)))) := by
    simp [fallbackBlock, headerTag, List.append_assoc]
  rw [hdecomp]
  -- Head position: the header matches and emits `day`.
  have h1 : tryHeader (headerTag ++ (natDecimal day ++ ':' ::
      ((" Explore ").data ++ dest ++ ('*' :: '*' :: '\n' ::
        (mornLine ++ lunchPre ++ dest ++ lunchSuf ++ aftLine ++ eveLine ++ t))))) =
      some (parseNat (natDecimal day), (" Explore ").data ++ dest ++ ('*' :: '*' :: '\n' ::
        (mornLine ++ lunchPre ++ dest ++ lunchSuf ++ aftLine ++ eveLine ++ t))) :=
    tryHeader_header _ hne hdig
  rw [show headerTag ++ (natDecimal day ++ ':' ::
      ((" Explore ").data ++ dest ++ ('*' :: '*' :: '\n' ::
        (mornLine ++ lunchPre ++ dest ++ lunchSuf ++ aftLine ++ eveLine ++ t)))) =
      '*' :: '*' :: 'D' :: 'a' :: 'y' :: ' ' :: (natDecimal day ++ ':' ::
      ((" Explore ").data ++ dest ++ ('*' :: '*' :: '\n' ::
        (mornLine ++ lunchPre ++ dest ++ lunchSuf ++ aftLine ++ eveLine ++ t))))
    from rfl] at h1 ⊢
  rw [scanHeaders_cons_some h1, parseNat_natDecimal]
  -- Position 1 (`*Day …`) does not match.
  rw [scanHeaders_cons_none (tryHeader_cons2_not_star (by decide))]
  -- The star-free stretch `Day <digits>: Explore <dest>`.
  have hstretch : ('D' :: 'a' :: 'y' :: ' ' :: (natDecimal day ++ ':' ::
      ((" Explore ").data ++ dest ++ ('*' :: '*' :: '\n' ::
        (mornLine ++ lunchPre ++ dest ++ lunchSuf ++ aftLine ++ eveLine ++ t))))) =
      ('D' :: 'a' :: 'y' :: ' ' :: (natDecimal day ++ ':' ::
        ((" Explore ").data ++ dest))) ++ ('*' :: '*' :: '\n' ::
        (mornLine ++ lunchPre ++ dest ++ lunchSuf ++ aftLine ++ eveLine ++ t)) := by
    simp [List.append_assoc]
  rw [hstretch, scanHeaders_starFree_append
    (starFree_cons (by decide) (starFree_cons (by decide) (starFree_cons (by decide)
      (starFree_cons (by decide) (starFree_append (starFree_of_digits hdig)
        (starFree_cons (by decide) (starFree_append (by decide) hdest)))))))]
  -- The `**` of `<dest>**\n` does not start a header.
  rw [scanHeaders_cons_none (tryHeader_cons3_not_D (by decide)),
    scanHeaders_cons_none (tryHeader_cons2_not_star (by decide))]
  -- The rest of the block (newline and the four bullet lines) is star-free.
  have htail : ('\n' :: (mornLine ++ lunchPre ++ dest ++ lunchSuf ++ aftLine ++ eveLine ++ t)) =
      ('\n' :: (mornLine ++ lunchPre ++ dest ++ lunchSuf ++ aftLine ++ eveLine)) ++ t := by
    simp [List.append_assoc]
  rw [htail, scanHeaders_starFree_append
    (starFree_cons (by decide) (starFree_append (starFree_append (starFree_append
      (starFree_append (starFree_append (by decide) (by decide)) hdest) (by decide))
      (by decide)) (by decide)))]

/-- Scanning `n` consecutive fallback blocks yields exactly the day numbers
`startDay, …, startDay + n - 1`. -/
theorem scanHeaders_fallbackBlocksFrom {dest : List Char} (hdest : ∀ c ∈ dest, c ≠ '*') :
    ∀ (n s : Nat) (t : List Char),
      scanHeaders (fallbackBlocksFrom dest s n ++ t) =
        List.range' s n ++ scanHeaders t := by
  intro n
  induction n with
  | zero =>
    intro s t
    simp [fallbackBlocksFrom]
  | succ m ih =>
    intro s t
    rw [fallbackBlocksFrom, List.append_assoc, scanHeaders_fallbackBlock hdest, ih,
      List.range'_succ s m 1]
    rfl

/-- Scanning a `generateFallbackDays` output yields exactly the day numbers
`startDay, …, totalDays`. -/
theorem scanHeaders_generateFallbackDays {dest : List Char}
    (hdest : ∀ c ∈ dest, c ≠ '*') (totalDays startDay : Nat) (t : List Char) :
    scanHeaders (generateFallbackDays dest totalDays startDay ++ t) =
      List.range' startDay (totalDays + 1 - startDay) ++ scanHeaders t := by
  rw [generateFallbackDays, List.append_assoc,
    scanHeaders_starFree_append (by decide), scanHeaders_fallbackBlocksFrom hdest]

/-- Scanning the chunk loop output when every generation call throws: every
chunk contributes its fallback days, covering `startDay … duration` without
gap or duplicate. -/
theorem scanHeaders_chunksFrom_err {provider : Nat → Nat → ChunkOutcome}
    (hprov : ∀ s e, provider s e = ChunkOutcome.err)
    {dest : List Char} (hdest : ∀ c ∈ dest, c ≠ '*') (duration : Nat) :
    ∀ (fuel startDay : Nat) (t : List Char), duration + 1 ≤ startDay + 2 * fuel →
      scanHeaders (chunksFrom provider dest duration fuel startDay ++ t) =
        List.range' startDay (duration + 1 - startDay) ++ scanHeaders t := by
  intro fuel
  induction fuel with
  | zero =>
    intro s t hle
    have : duration + 1 - s = 0 := by omega
    rw [this]
    simp [chunksFrom]
  | succ f ih =>
    intro s t hle
    by_cases hs : s ≤ duration
    · rw [chunksFrom, if_pos hs]
      rw [hprov s (min (s + 1) duration)]
      rw [show chunkText dest s (min (s + 1) duration) ChunkOutcome.err =
        generateFallbackDays dest (min (s + 1) duration) s from rfl]
      rw [List.append_assoc, scanHeaders_generateFallbackDays hdest,
        ih (s + 2) t (by omega)]
      by_cases hs1 : s + 1 ≤ duration
      · have hmin : min (s + 1) duration = s + 1 := by omega
        rw [hmin, show s + 1 + 1 - s = 2 from by omega, ← List.append_assoc]
        have happ : List.range' s 2 ++ List.range' (s + 2) (duration + 1 - (s + 2)) =
            List.range' s (duration + 1 - s) := by
          rw [List.range'_append_1, show duration + 1 - (s + 2) + 2 = duration + 1 - s
            from by omega]
        rw [happ]
      · have hsd : s = duration := by omega
        have hmin : min (s + 1) duration = s := by omega
        rw [hmin, show s + 1 - s = 1 from by omega,
          show duration + 1 - (s + 2) = 0 from by omega,
          show duration + 1 - s = 1 from by omega]
        simp
    · rw [chunksFrom, if_neg hs]
      rw [show duration + 1 - s = 0 from by omega]
      simp

/-- C1 (amended): for every `duration ≥ 1` and destination free of `*`, if
every chunk generation call fails, the itinerary text built by
`generateItinerary` is non-empty and its day headers are exactly
`**Day 1:` … `**Day duration:`, in order, with no gap — the headline
guarantee of the chunked generator.  (The original claim quantified over
arbitrary provider responses as well; `itinerary_headers_arbitrary_text`
refutes that stronger form.) -/
theorem itinerary_day_headers_all_fail (provider : Nat → Nat → ChunkOutcome)
    (dest : List Char) (duration : Nat) (hdur : 1 ≤ duration)
    (hdest : ∀ c ∈ dest, c ≠ '*')
    (hprov : ∀ s e, provider s e = ChunkOutcome.err) :
    scanHeaders (generateItineraryText provider dest duration) =
      List.range' 1 duration ∧
    generateItineraryText provider dest duration ≠ [] := by
  have hraw : scanHeaders (rawChunks provider dest duration) = List.range' 1 duration := by
    have h0 := scanHeaders_chunksFrom_err hprov hdest duration duration 1 [] (by omega)
    simp only [List.append_nil, show scanHeaders [] = [] from rfl,
      Nat.add_sub_cancel] at h0
    exact h0
  have hcount : (scanHeaders (rawChunks provider dest duration)).length = duration := by
    rw [hraw]
    simp
  have hif : ¬ ((scanHeaders (rawChunks provider dest duration)).length < duration) := by
    omega
  constructor
  · rw [generateItineraryText]
    simp only [hif, if_false]
    exact hraw
  · rw [generateItineraryText]
    simp only [hif, if_false]
    intro hnil
    rw [hnil] at hraw
    have : (List.range' 1 duration).length = 0 := by
      rw [← hraw]
      rfl
    simp at this
    omega

/-- Witness for C1 (amended) at `duration = 3`, destination `Paris`, every
call failing. -/
theorem itinerary_day_headers_all_fail_witness :
    scanHeaders (generateItineraryText (fun _ _ => ChunkOutcome.err) (("Paris").data) 3) =
      List.range' 1 3 :=
  (itinerary_day_headers_all_fail (fun _ _ => ChunkOutcome.err) (("Paris").data) 3
    (by decide) (by decide) (fun _ _ => rfl)).1

/-- A provider whose single chunk response is arbitrary well-formed-looking
text with the wrong day number. -/
def wrongDayProvider : Nat → Nat → ChunkOutcome :=
  fun _ _ => ChunkOutcome.ok (some (("**Day 7: Mars**\n").data))

/-- C1 counterexample: with `duration = 1` and a provider returning the text
`**Day 7: Mars**`, the generator returns an itinerary whose single day header
is `**Day 7:` — the day-count check passes (`1 ≥ 1`), so nothing repairs the
numbering, and the result is not numbered `1..duration`.  The claim's
guarantee fails for arbitrary provider text. -/
theorem itinerary_headers_arbitrary_text :
    scanHeaders (generateItineraryText wrongDayProvider (("Paris").data) 1) = [7] ∧
    scanHeaders (generateItineraryText wrongDayProvider (("Paris").data) 1) ≠
      List.range' 1 1 := by decide

end Travel
